import Mathlib

/-!
Verification of the semantic product retrieval engine of
`core/chatbot/EmbeddingManager.py`.

Modelling conventions:
* Python strings are Lean `String`s; the character-level operations
  (`lower`, `split`, `strip`, substring tests) are modelled as structural
  recursions over `String.data` (`List Char`).  Python's Unicode-aware
  `str.lower` is modelled by `Char.toLower` per character; the two agree on
  every string manipulated by this program (ASCII letters plus already
  lowercase accented letters such as `á`, `é`, `í`).
* Python floats (similarity scores, prices, thresholds) are modelled as
  exact rationals `ℚ`; float literals such as `0.7` and `0.45` become
  `7/10` and `45/100`.
* The sentence-transformer model and the FAISS index are external to the
  repository: the encoder is a parameter `embed : String → List ℚ`
  (a batch encode is its pointwise map), and the result of
  `index.search` is a parameter `hits : List (ℚ × Int)`, the zip of the
  returned score row and index row.  The FAISS `IndexFlatIP` built by
  `create_embeddings_from_db` stores exactly the vectors added to it, so
  the built index is modelled by its list of rows.
* Python's `%.0f` float formatting of the price inside the document text
  is abstracted as a parameter `priceStr : ℚ → String`; it has no bearing
  on any claim (the document text only flows into the abstract encoder).
-/

namespace EmbeddingManager

/-! ### Character/string primitives (models of Python `str` operations) -/

/-- Model of Python `str.lower`, applied characterwise. -/
def pyLower (s : String) : String := ⟨s.data.map Char.toLower⟩

/-- `isPrefixL pre l` holds when `pre` is a prefix of `l`. -/
def isPrefixL : List Char → List Char → Bool
  | [], _ => true
  | _ :: _, [] => false
  | a :: as, b :: bs => a = b && isPrefixL as bs

/-- `containsSub sub l` models Python's substring test `sub in l`. -/
def containsSub (sub : List Char) : List Char → Bool
  | [] => sub.isEmpty
  | c :: rest => isPrefixL sub (c :: rest) || containsSub sub rest

/-- Python's `needle in haystack` on strings. -/
def strIn (needle haystack : String) : Bool :=
  containsSub needle.data haystack.data

/-- Helper for `pySplit`: accumulates the current word (reversed). -/
def pySplitAux : List Char → List Char → List String
  | [], acc => if acc.isEmpty then [] else [⟨acc.reverse⟩]
  | c :: cs, acc =>
      if c.isWhitespace then
        if acc.isEmpty then pySplitAux cs []
        else (⟨acc.reverse⟩ : String) :: pySplitAux cs []
      else pySplitAux cs (c :: acc)

/-- Model of Python `str.split()` (no separator): split on whitespace
runs, dropping empty words. -/
def pySplit (s : String) : List String := pySplitAux s.data []

/-- Model of Python `str.strip`. -/
def pyStrip (s : String) : String :=
  ⟨((s.data.dropWhile Char.isWhitespace).reverse.dropWhile
      Char.isWhitespace).reverse⟩

/-- `joinSep sep ws` models Python `sep.join(ws)` at the character level. -/
def joinSep (sep : List Char) : List String → List Char
  | [] => []
  | [w] => w.data
  | w :: ws => w.data ++ sep ++ joinSep sep ws

/-! ### `EmbeddingManager.stopwords` and `_clean_query` -/

/-- The stopword set of `EmbeddingManager.__init__` (source line 71). -/
def stopwords : List String :=
  ["busca", "un", "una", "el", "la", "los", "las", "de", "en", "y",
   "con", "para"]

/-- The `query_expansions` table of `_clean_query`, in insertion order. -/
def queryExpansions : List (String × String) :=
  [("victus", "hp victus gaming laptop computador portátil"),
   ("portatil", "portátil laptop computador notebook es portátil sí"),
   ("portátil", "portátil laptop computador notebook es portátil sí"),
   ("portatiles", "portátiles laptops computadores notebooks es portátil sí"),
   ("portátiles", "portátiles laptops computadores notebooks es portátil sí"),
   ("laptop", "portátil laptop computador notebook es portátil sí"),
   ("computador", "computador pc ordenador"),
   ("celular", "celular smartphone móvil teléfono"),
   ("smartphone", "smartphone celular móvil"),
   ("tablet", "tablet ipad"),
   ("tv", "televisor tv smart television"),
   ("televisor", "televisor tv smart television"),
   ("audifonos", "audífonos headphones auriculares"),
   ("gamer", "gamer gaming juegos"),
   ("categoria", "categoría tipo")]

/-- Model of `EmbeddingManager._clean_query`: lowercase and split the
query, drop stopwords, rejoin, append each expansion whose trigger term
occurs in the cleaned query, add the category emphasis suffix, strip. -/
def cleanQuery (query : String) : String :=
  let words := pySplit (pyLower query)
  let cleaned_words := words.filter (fun w => !(stopwords.contains w))
  let cleaned_query : String := ⟨joinSep [' '] cleaned_words⟩
  let expanded :=
    queryExpansions.foldl
      (fun acc te =>
        if strIn te.1 cleaned_query then acc ++ " " ++ te.2 else acc)
      cleaned_query
  let expanded :=
    if ["categoria", "categoría", "tipo"].any
        (fun w => strIn w cleaned_query) then
      if strIn "portatil" cleaned_query || strIn "portátil" cleaned_query
      then expanded ++ " es portátil sí no all-in-one no escritorio"
      else expanded
    else expanded
  pyStrip expanded

/-! ### Data model -/

/-- A product document as it comes out of MongoDB.  Every field the code
reads with `dict.get(key, default)` is an `Option`; `none` models a
missing key and `Option.getD` models the `get` default. -/
structure Product where
  _id : Option String
  name : Option String
  brand : Option String
  category : Option String
  discount_price_num : Option ℚ
  original_price_num : Option ℚ
  discount_percent : Option String
  product_url : Option String
  image_url : Option String
  availability : Option String
  specifications : Option (List (String × String))
  source : Option String
deriving DecidableEq, Repr

/-- One entry of `product_metadata`, as written by
`create_embeddings_from_db` (source lines 209-224). -/
structure Meta where
  id : String
  name : String
  brand : String
  category : String
  price : ℚ
  discount_percent : String
  product_url : String
  image_url : String
  availability : String
  specifications : List (String × String)
  source : String
  is_main_product : Bool
deriving DecidableEq, Repr

/-! ### Category normalisation and classification -/

/-- The `category_map` dict of `__init__`, in insertion order (keys are
pairwise distinct, so association-list lookup models dict lookup). -/
def category_map : List (String × String) :=
  [("celulares/smartphones", "Smartphones"),
   ("smartphones", "Smartphones"),
   ("celulares", "Smartphones"),
   ("computadores-tablet/computadores-portatiles", "Portátiles"),
   ("portatiles", "Portátiles"),
   ("laptops", "Portátiles"),
   ("computadores-tablet/computadores-escritorio-all-in-one",
      "Computadores de Escritorio"),
   ("computadores_escritorio", "Computadores de Escritorio"),
   ("desktops", "Computadores de Escritorio"),
   ("computadores-tablet/tabletas-ipads", "Tablets"),
   ("tabletas", "Tablets"),
   ("tablets", "Tablets"),
   ("accesorios-electronica", "Accesorios Electrónicos"),
   ("accesorios_electronicos", "Accesorios Electrónicos"),
   ("computadores-tablet/monitores", "Monitores"),
   ("monitores", "Monitores"),
   ("computadores-tablet/proyectores-videobeam", "Proyectores"),
   ("proyectores", "Proyectores"),
   ("tv/smart-tv", "Televisores"),
   ("televisores", "Televisores"),
   ("tvs", "Televisores"),
   ("complementos-tv", "Complementos TV"),
   ("complementos_tv", "Complementos TV"),
   ("accesorios-electronica/accesorios-tv-video", "Accesorios TV"),
   ("videojuegos/consolas", "Consolas"),
   ("consolas", "Consolas"),
   ("videojuegos/accesorios-videojuegos", "Accesorios Videojuegos"),
   ("audio / audifonos", "Audífonos"),
   ("audifonos", "Audífonos"),
   ("audífonos", "Audífonos"),
   ("headphones", "Audífonos"),
   ("casa-inteligente-domotica", "Casa Inteligente"),
   ("casa_inteligente", "Casa Inteligente"),
   ("smart home", "Casa Inteligente")]

/-- Model of `EmbeddingManager._normalize_category`. -/
def normalizeCategory (category : String) : String :=
  if category = "" then "Sin categoría"
  else
    let category_lower := pyStrip (pyLower category)
    ((category_map.find? (fun kv => kv.1 = category_lower)).map
        (fun kv => kv.2)).getD category

/-- The `main_categories` set of `_is_main_product_category`. -/
def main_categories : List String :=
  ["smartphones", "portátiles", "computadores de escritorio", "tablets",
   "televisores", "monitores", "proyectores", "consolas", "audífonos"]

/-- Model of `EmbeddingManager._is_main_product_category`. -/
def isMainProductCategory (category : String) : Bool :=
  main_categories.contains (pyLower category)

/-! ### `_clean_text` and `_create_product_text` -/

/-- Approximation of Python's regex class `\w` used in `_clean_text`:
ASCII alphanumerics, underscore, and (approximating Unicode word
characters — in this catalog they are all accented letters) any
non-ASCII codepoint. -/
def isWordCharPy (c : Char) : Bool :=
  c.isAlphanum || c = '_' || 127 < c.toNat

/-- A character kept (not replaced by a space) by
`re.sub(r'[^\w\s|:.-]', ' ', text)`. -/
def keepChar (c : Char) : Bool :=
  isWordCharPy c || c.isWhitespace || c = '|' || c = ':' || c = '.' ||
    c = '-'

/-- Model of `re.sub(r'\s+', ' ', text)`: collapse each whitespace run
into a single space. -/
def collapseWs : List Char → List Char
  | [] => []
  | c :: cs =>
      if c.isWhitespace then ' ' :: collapseWs (cs.dropWhile Char.isWhitespace)
      else c :: collapseWs cs
termination_by l => l.length
decreasing_by
  · exact Nat.lt_succ_of_le (List.dropWhile_sublist _).length_le
  · simp

/-- Model of `EmbeddingManager._clean_text`. -/
def cleanText (text : String) : String :=
  if text = "" then ""
  else
    let step1 := text.data.map (fun c => if keepChar c then c else ' ')
    pyStrip ⟨collapseWs step1⟩

/-- The `important_specs` keyword list of `_create_product_text`. -/
def important_specs : List String :=
  ["procesador", "processor", "cpu", "ram", "memoria", "almacenamiento",
   "storage", "disco", "pantalla", "screen", "display", "batería",
   "battery", "cámara", "camera", "color", "modelo", "model", "tamaño",
   "size", "resolución", "resolution", "capacidad", "capacity",
   "sistema operativo", "os", "android", "ios", "windows", "pulgadas",
   "pulgada", "inch"]

/-- The `" | ".join` of the accumulated `text_parts`. -/
def joinBar (parts : List String) : String :=
  ⟨joinSep [' ', '|', ' '] parts⟩

/-- The second specification loop of `_create_product_text`: append
`"Detalle: k: v"` unless `"k: v"` already occurs as a substring of the
`" | "`-join of the parts accumulated so far (the join is recomputed as
parts grow). -/
def detailLoop : List String → List (String × String) → List String
  | parts, [] => parts
  | parts, (k, v) :: rest =>
      if strIn (k ++ ": " ++ v) (joinBar parts) then detailLoop parts rest
      else detailLoop (parts ++ ["Detalle: " ++ k ++ ": " ++ v]) rest

/-- Model of `EmbeddingManager._create_product_text`.  `priceStr`
abstracts Python's `f"{price:.0f}"` float formatting; the function is
total, so the `except` fallback branch of the source is unreachable. -/
def createProductText (priceStr : ℚ → String) (product : Product) :
    String :=
  let name := product.name.getD ""
  let brand := product.brand.getD "Sin marca"
  let original_category := product.category.getD ""
  let category := normalizeCategory original_category
  let price :=
    product.discount_price_num.getD (product.original_price_num.getD 0)
  let discount := product.discount_percent.getD "0%"
  let parts := ["Producto: " ++ name]
  let parts :=
    if strIn "portátil" (pyLower category) || strIn "portatil" (pyLower name)
    then parts ++ ["Tipo: Computador Portátil Laptop Notebook",
                   "Es portátil: sí"]
    else if strIn "escritorio" (pyLower category) ||
        strIn "all in one" (pyLower name)
    then parts ++ ["Tipo: Computador de Escritorio All-in-One",
                   "Es portátil: no"]
    else parts
  let parts := parts ++ ["Nombre: " ++ name, "Marca: " ++ brand,
                         "Categoría: " ++ category]
  let parts :=
    if isMainProductCategory category then
      (parts ++ ["Precio: " ++ priceStr price ++ " pesos"]) ++
        (if !(["0%", "0", "Sin descuento"].contains discount)
         then ["Descuento: " ++ discount] else [])
    else parts
  let parts := parts ++ ["Tienda: " ++ product.source.getD "alkosto"]
  let specs := product.specifications.getD []
  let parts := parts ++
    (specs.filter (fun kv =>
        important_specs.any (fun imp => strIn imp (pyLower kv.1)))).map
      (fun kv => "Especificación: " ++ kv.1 ++ ": " ++ kv.2)
  let parts :=
    if isMainProductCategory category && specs.length ≤ 15
    then detailLoop parts specs
    else parts
  cleanText (joinBar parts)

/-- The metadata entry `create_embeddings_from_db` stores for a product
(source lines 209-224).  `str(product.get('_id'))` renders a missing id
as Python's `str(None)`. -/
def mkMetadata (product : Product) : Meta :=
  { id := product._id.getD "None"
    name := product.name.getD ""
    brand := product.brand.getD ""
    category := normalizeCategory (product.category.getD "")
    price :=
      product.discount_price_num.getD (product.original_price_num.getD 0)
    discount_percent := product.discount_percent.getD "0%"
    product_url := product.product_url.getD ""
    image_url := product.image_url.getD ""
    availability := product.availability.getD "Disponible"
    specifications := product.specifications.getD []
    source := product.source.getD "alkosto"
    is_main_product :=
      isMainProductCategory (normalizeCategory (product.category.getD "")) }

/-! ### `create_embeddings_from_db` -/

/-- The batches visited by `for i in range(0, len(texts), batch_size)`,
each batch being `texts[i : i + batch_size]`.  Python's `range` raises
`ValueError` on step `0`, so only `bs > 0` is meaningful; the model
returns `[]` there. -/
def toBatches (bs : Nat) (l : List α) : List (List α) :=
  if bs = 0 then []
  else if l.isEmpty then []
  else l.take bs :: toBatches bs (l.drop bs)
termination_by l.length
decreasing_by
  rename_i h1 h2
  have hl : l ≠ [] := by simpa [List.isEmpty_iff] using h2
  have : 0 < l.length := List.length_pos.mpr hl
  simp only [List.length_drop]
  omega

/-- Outcome of `create_embeddings_from_db`: the returned boolean plus
the three artefacts written to disk (`none` = the file is not written,
so a previously persisted file is left untouched). -/
structure BuildResult where
  success : Bool
  savedIndex : Option (List (List ℚ))
  savedMetadata : Option (List Meta)
  savedEmbeddings : Option (List (List ℚ))
deriving DecidableEq, Repr

/-- Model of `EmbeddingManager.create_embeddings_from_db`.
`embed` abstracts `SentenceTransformer.encode` on one text (a batch
encode is its pointwise map, `np.vstack` is list join); the FAISS
`IndexFlatIP` holds exactly the rows added to it, so the written index
is the embedding matrix itself. -/
def createEmbeddingsFromDb (embed : String → List ℚ)
    (priceStr : ℚ → String) (products : List Product) (batch_size : Nat) :
    BuildResult :=
  if products.isEmpty then
    { success := false, savedIndex := none, savedMetadata := none,
      savedEmbeddings := none }
  else
    let product_texts := products.map (createProductText priceStr)
    let metadata := products.map mkMetadata
    let all_embeddings :=
      (toBatches batch_size product_texts).map (fun b => b.map embed)
    let embeddings := all_embeddings.flatten
    { success := true, savedIndex := some embeddings,
      savedMetadata := some metadata, savedEmbeddings := some embeddings }

/-! ### `search_products` -/

/-- The portability word list used twice in `search_products` (for the
threshold adjustment and for the All-in-One penalty). -/
def portabilityTerms : List String :=
  ["portatil", "portátil", "laptop", "notebook"]

/-- `any(word in query.lower() for word in [...])`. -/
def isPortabilityQuery (query : String) : Bool :=
  portabilityTerms.any (fun w => strIn w (pyLower query))

/-- The effective threshold of `search_products`: raised to at least
`0.45` for portability queries (source line 346). -/
def adjustedThreshold (query : String) (threshold : ℚ) : ℚ :=
  if isPortabilityQuery query then max threshold (45 / 100) else threshold

/-- The All-in-One penalty condition of `search_products` (source lines
375-376): the candidate's category mentions `escritorio` or its
lowercased name mentions `all-in-one`. -/
def penaltyTrigger (product : Meta) : Bool :=
  strIn "escritorio" (pyLower product.category) ||
    strIn "all-in-one" (pyLower product.name)

/-- The candidate loop of `search_products` (source lines 359-384) over
the FAISS hits `(score, idx)`: drop out-of-range rows and scores below
the effective threshold, deduplicate by lowercased name, apply the
`×0.7` All-in-One penalty on portability queries, and split the
survivors into main products and accessories (both in hit order). -/
def searchLoop (md : List Meta) (adj : ℚ) (pen : Bool) :
    List (ℚ × Int) → List String → List (Meta × ℚ) × List (Meta × ℚ)
  | [], _ => ([], [])
  | (score, idx) :: rest, seen =>
      if h : 0 ≤ idx ∧ idx.toNat < md.length ∧ adj ≤ score then
        let product := md.get ⟨idx.toNat, h.2.1⟩
        let product_name := pyLower product.name
        if product_name ∈ seen then searchLoop md adj pen rest seen
        else
          let s := if pen && penaltyTrigger product then score * (7 / 10)
                   else score
          let out := searchLoop md adj pen rest (product_name :: seen)
          if product.is_main_product then ((product, s) :: out.1, out.2)
          else (out.1, (product, s) :: out.2)
      else searchLoop md adj pen rest seen

/-- Model of `EmbeddingManager.search_products`.  `md` is the loaded
`product_metadata`; `hits` is the zipped `(scores[0], indices[0])`
returned by `index.search` for the embedded cleaned query (the FAISS
call is external, so the hit list is a parameter).  An unloaded index
(`self.index is None or not self.product_metadata`) returns `[]`; in
every reachable state the index is `None` exactly when the metadata list
is empty, so the guard is modelled on the metadata. -/
def searchProducts (md : List Meta) (hits : List (ℚ × Int))
    (query : String) (top_k : Nat) (threshold : ℚ) : List (Meta × ℚ) :=
  if md.isEmpty then []
  else
    let adjusted_threshold := adjustedThreshold query threshold
    let pen := isPortabilityQuery query
    let parts := searchLoop md adjusted_threshold pen hits []
    let results := parts.1.take top_k
    let results := results ++ parts.2.take (top_k - results.length)
    results.mergeSort (fun a b => decide (b.2 ≤ a.2))

/-- The result list of `search_products` before the final descending
sort (sorting `[]` is `[]`, so the early return commutes with the
sort). -/
def searchPre (md : List Meta) (hits : List (ℚ × Int)) (query : String)
    (top_k : Nat) (threshold : ℚ) : List (Meta × ℚ) :=
  if md.isEmpty then []
  else
    let parts := searchLoop md (adjustedThreshold query threshold)
      (isPortabilityQuery query) hits []
    let results := parts.1.take top_k
    results ++ parts.2.take (top_k - results.length)

/-! ### `search_by_filters` -/

/-- The no-discount sentinel values. -/
def noDiscountSentinels : List String := ["0%", "0", "Sin descuento"]

/-- The guard `category and category.lower() not in
product.get('category', '').lower()` (a `None` — or empty, which every
string contains — category filter never skips). -/
def catSkip (category : Option String) (p : Meta × Option ℚ) : Bool :=
  match category with
  | some c => !(strIn (pyLower c) (pyLower p.1.category))
  | none => false

/-- The guard `brand and brand.lower() not in
product.get('brand', '').lower()`. -/
def brandSkip (brand : Option String) (p : Meta × Option ℚ) : Bool :=
  match brand with
  | some b => !(strIn (pyLower b) (pyLower p.1.brand))
  | none => false

/-- The guard `min_price is not None and price < min_price`. -/
def minPriceSkip (min_price : Option ℚ) (p : Meta × Option ℚ) : Bool :=
  match min_price with
  | some mp => decide (p.1.price < mp)
  | none => false

/-- The guard `max_price is not None and price > max_price`. -/
def maxPriceSkip (max_price : Option ℚ) (p : Meta × Option ℚ) : Bool :=
  match max_price with
  | some mp => decide (mp < p.1.price)
  | none => false

/-- The guard `with_discount and product.get('discount_percent', '0%')
in ['0%', '0', 'Sin descuento']`. -/
def discountSkip (with_discount : Bool) (p : Meta × Option ℚ) : Bool :=
  with_discount && noDiscountSentinels.contains p.1.discount_percent

/-- The filter loop of `search_by_filters` (source lines 421-441):
each candidate is dropped by the first failing filter, survivors are
appended, and the loop breaks as soon as `top_k` survivors have been
collected.  `taken` is the number of survivors collected so far. -/
def filterLoop (category brand : Option String)
    (min_price max_price : Option ℚ) (with_discount : Bool)
    (top_k : Nat) :
    List (Meta × Option ℚ) → Nat → List (Meta × Option ℚ)
  | [], _ => []
  | p :: rest, taken =>
      if catSkip category p then
        filterLoop category brand min_price max_price with_discount top_k
          rest taken
      else if brandSkip brand p then
        filterLoop category brand min_price max_price with_discount top_k
          rest taken
      else if minPriceSkip min_price p then
        filterLoop category brand min_price max_price with_discount top_k
          rest taken
      else if maxPriceSkip max_price p then
        filterLoop category brand min_price max_price with_discount top_k
          rest taken
      else if discountSkip with_discount p then
        filterLoop category brand min_price max_price with_discount top_k
          rest taken
      else if top_k ≤ taken + 1 then [p]
      else p :: filterLoop category brand min_price max_price with_discount
          top_k rest (taken + 1)

/-- Model of `EmbeddingManager.search_by_filters`.  A truthy query
(`some q` with `q ≠ ""`) takes the over-fetched semantic candidate pool
`search_products(q, top_k*2, threshold)`; otherwise the pool is the
enumerated metadata truncated to `top_k*3` entries (in the source the
`{'id': i, **meta}` enumeration index is immediately overridden by the
metadata's own `id` key, so the entries are the metadata records, with
no similarity score attached). -/
def searchByFilters (md : List Meta) (hits : List (ℚ × Int))
    (query : Option String) (category : Option String)
    (min_price max_price : Option ℚ) (brand : Option String)
    (with_discount : Bool) (top_k : Nat) (threshold : ℚ) :
    List (Meta × Option ℚ) :=
  let pool_no_query :=
    (md.map (fun m => (m, (none : Option ℚ)))).take (top_k * 3)
  let semantic_results :=
    match query with
    | some q =>
        if q = "" then pool_no_query
        else (searchProducts md hits q (top_k * 2) threshold).map
          (fun p => (p.1, some p.2))
    | none => pool_no_query
  filterLoop category brand min_price max_price with_discount top_k
    semantic_results 0

/-! ### Proof-side helper functions -/

/-- The lowercased names of the hits that pass the range and threshold
guard of the candidate loop, in hit order (dedup not yet applied). -/
def acceptedNames (md : List Meta) (adj : ℚ) :
    List (ℚ × Int) → List String
  | [] => []
  | (score, idx) :: rest =>
      if h : 0 ≤ idx ∧ idx.toNat < md.length ∧ adj ≤ score then
        pyLower (md.get ⟨idx.toNat, h.2.1⟩).name :: acceptedNames md adj rest
      else acceptedNames md adj rest

/-- `countNew l seen` counts the elements of `l` that are new: neither
in `seen` nor seen earlier in `l`. -/
def countNew : List String → List String → Nat
  | [], _ => 0
  | n :: rest, seen =>
      if n ∈ seen then countNew rest seen else countNew rest (n :: seen) + 1

/-- `rawScoreOf md hits adj m s`: some retrieved neighbor row of `hits`
refers to metadata entry `m` with raw index score `s` passing the
effective threshold `adj`. -/
def rawScoreOf (md : List Meta) (hits : List (ℚ × Int)) (adj : ℚ)
    (m : Meta) (s : ℚ) : Prop :=
  ∃ idx, (s, idx) ∈ hits ∧ 0 ≤ idx ∧ md[idx.toNat]? = some m ∧ adj ≤ s

/-- The number of retrieved neighbors that pass the range/threshold
guard and whose metadata entry is flagged as a main product (duplicate
names counted separately — no dedup). -/
def mainPassCount (md : List Meta) (adj : ℚ) : List (ℚ × Int) → Nat
  | [] => 0
  | (score, idx) :: rest =>
      if h : 0 ≤ idx ∧ idx.toNat < md.length ∧ adj ≤ score then
        (if (md.get ⟨idx.toNat, h.2.1⟩).is_main_product then 1 else 0) +
          mainPassCount md adj rest
      else mainPassCount md adj rest

/-! ### Concrete sample data for witnesses and counterexamples -/

/-- A sample scraped laptop product. -/
def sp1 : Product :=
  ⟨some "id1", some "Victus 15", some "HP", some "portatiles",
   some 3000000, none, some "10%", some "u1", some "i1",
   some "Disponible", some [], some "alkosto"⟩

/-- A sample scraped all-in-one product. -/
def sp2 : Product :=
  ⟨some "id2", some "HP AIO 24", some "HP", some "computadores_escritorio",
   none, some 2500000, none, none, none, none, none, none⟩

/-- A main-category metadata entry named `x`. -/
def mMainX1 : Meta :=
  ⟨"1", "x", "b", "Monitores", 10, "0%", "", "", "Disponible", [],
   "alkosto", true⟩

/-- A second main-category metadata entry with the same name `x`
(a near-identical listing from another store). -/
def mMainX2 : Meta :=
  ⟨"2", "x", "b2", "Monitores", 11, "0%", "", "", "Disponible", [],
   "alkosto", true⟩

/-- An accessory metadata entry named `y`. -/
def mAccY : Meta :=
  ⟨"3", "y", "b", "Accesorios Electrónicos", 5, "5%", "", "",
   "Disponible", [], "alkosto", false⟩

/-- A portable-computer metadata entry. -/
def mLaptop : Meta :=
  ⟨"4", "victus 15", "hp", "Portátiles", 3000000, "10%", "", "",
   "Disponible", [], "alkosto", true⟩

/-- A desktop all-in-one metadata entry. -/
def mAio : Meta :=
  ⟨"5", "hp aio 24", "hp", "Computadores de Escritorio", 2500000, "0%",
   "", "", "Disponible", [], "alkosto", true⟩

/-- A tablet metadata entry, placed fourth in a catalog for the
candidate-pool counterexample. -/
def mTab : Meta :=
  ⟨"6", "ipad", "apple", "Tablets", 1500000, "0%", "", "", "Disponible",
   [], "alkosto", true⟩

/-! ## Helper lemmas -/

theorem toBatches_flatten {α : Type _} (bs : Nat) (hbs : 0 < bs)
    (l : List α) : (toBatches bs l).flatten = l := by
  induction l using toBatches.induct bs with
  | case1 l h => omega
  | case2 l h1 h2 =>
      rw [toBatches]
      simp [h2, List.isEmpty_iff.mp h2]
  | case3 l h1 h2 ih =>
      rw [toBatches]
      simp only [if_neg h1, if_neg h2, List.flatten_cons, ih]
      exact List.take_append_drop bs l

theorem toBatches_map {α β : Type _} (bs : Nat) (f : α → β) (l : List α) :
    toBatches bs (l.map f) = (toBatches bs l).map (List.map f) := by
  induction l using toBatches.induct bs with
  | case1 l h => simp [toBatches, h]
  | case2 l h1 h2 =>
      rw [List.isEmpty_iff.mp h2]
      simp [toBatches]
  | case3 l h1 h2 ih =>
      have hme : (l.map f).isEmpty = false := by
        have : l ≠ [] := by simpa [List.isEmpty_iff] using h2
        simp [List.isEmpty_iff, this]
      rw [show toBatches bs (l.map f)
            = (l.map f).take bs :: toBatches bs ((l.map f).drop bs) from by
          rw [toBatches]; simp [h1, hme]]
      rw [show toBatches bs l = l.take bs :: toBatches bs (l.drop bs) from by
          rw [toBatches]; simp [h1, h2]]
      rw [List.map_cons, List.map_take, ← List.map_drop, ih]

/-- The embedding matrix built by `create_embeddings_from_db` equals the
pointwise embedding of the document texts: batching by any positive
batch size followed by `np.vstack` restores the original order. -/
theorem createEmbeddings_rows (embed : String → List ℚ)
    (priceStr : ℚ → String) (products : List Product) (batch_size : Nat)
    (hne : products ≠ []) (hbs : 0 < batch_size) :
    createEmbeddingsFromDb embed priceStr products batch_size =
      { success := true
        savedIndex :=
          some (products.map (fun p => embed (createProductText priceStr p)))
        savedMetadata := some (products.map mkMetadata)
        savedEmbeddings :=
          some (products.map (fun p => embed (createProductText priceStr p))) } := by
  have hemp : products.isEmpty = false := by
    simp [List.isEmpty_iff, hne]
  rw [createEmbeddingsFromDb]
  simp only [hemp, Bool.false_eq_true, if_false]
  have key :
      ((toBatches batch_size (products.map (createProductText priceStr))).map
          (fun b => b.map embed)).flatten =
        products.map (fun p => embed (createProductText priceStr p)) := by
    have h1 : (toBatches batch_size
          (products.map (createProductText priceStr))).map (List.map embed)
        = toBatches batch_size
            ((products.map (createProductText priceStr)).map embed) :=
      (toBatches_map _ _ _).symm
    calc ((toBatches batch_size
            (products.map (createProductText priceStr))).map
              (fun b => b.map embed)).flatten
        = (toBatches batch_size
            ((products.map (createProductText priceStr)).map embed)).flatten := by
          rw [← h1]
      _ = (products.map (createProductText priceStr)).map embed :=
          toBatches_flatten _ hbs _
      _ = products.map (fun p => embed (createProductText priceStr p)) := by
          rw [List.map_map]; rfl
  rw [key]

/-! ## C7 -/

/-- C7: calling `create_embeddings_from_db` on an empty product list
returns `False`, raises no exception (the model is a total function),
and writes none of the three persisted files — index, metadata and
embeddings stay untouched (`none` = not written). -/
theorem createEmbeddings_empty_products (embed : String → List ℚ)
    (priceStr : ℚ → String) (batch_size : Nat) :
    createEmbeddingsFromDb embed priceStr [] batch_size =
      { success := false, savedIndex := none, savedMetadata := none,
        savedEmbeddings := none } := rfl

/-! ## C1 -/

/-- C1: after a successful `create_embeddings_from_db` over a non-empty
product list (with a positive batch size), metadata and index are
index-aligned: the metadata count equals the vector count, and row `i`
of the index is the embedding of the document text of product `i` while
metadata entry `i` is built from the same product `i` — original
product order is preserved across batches. -/
theorem createEmbeddings_alignment (embed : String → List ℚ)
    (priceStr : ℚ → String) (products : List Product) (batch_size : Nat)
    (hne : products ≠ []) (hbs : 0 < batch_size) :
    (createEmbeddingsFromDb embed priceStr products batch_size).success
        = true ∧
    ∃ rows metas,
      (createEmbeddingsFromDb embed priceStr products
          batch_size).savedIndex = some rows ∧
      (createEmbeddingsFromDb embed priceStr products
          batch_size).savedMetadata = some metas ∧
      metas.length = rows.length ∧
      rows.length = products.length ∧
      ∀ i (hi : i < products.length),
        rows[i]? = some (embed (createProductText priceStr
          (products.get ⟨i, hi⟩))) ∧
        metas[i]? = some (mkMetadata (products.get ⟨i, hi⟩)) := by
  rw [createEmbeddings_rows embed priceStr products batch_size hne hbs]
  refine ⟨rfl, products.map (fun p => embed (createProductText priceStr p)),
    products.map mkMetadata, rfl, rfl, by simp, by simp, ?_⟩
  intro i hi
  constructor
  · rw [List.getElem?_map]
    rw [List.getElem?_eq_getElem hi]
    rfl
  · rw [List.getElem?_map]
    rw [List.getElem?_eq_getElem hi]
    rfl

/-- Witness for C1 at a concrete two-product catalog, an embedding that
records the text length, and batch size 1. -/
theorem createEmbeddings_alignment_witness :
    ([sp1, sp2] ≠ ([] : List Product)) ∧ 0 < 1 ∧
    (createEmbeddingsFromDb (fun s => [(s.data.length : ℚ)])
        (fun _ => "P") [sp1, sp2] 1).success = true :=
  ⟨by decide, by decide,
    (createEmbeddings_alignment (fun s => [(s.data.length : ℚ)])
        (fun _ => "P") [sp1, sp2] 1 (by decide) (by decide)).1⟩

/-! ## C9 -/

/-- C9 counterexample: the claim says `clean_query("busco un portatil")`
removes the token `busco`, but the cleaned query still contains it —
`busco` is not in the stopword set (the set contains `busca`). -/
theorem cleanQuery_keeps_busco :
    strIn "busco" (cleanQuery "busco un portatil") = true ∧
    ¬("busco" ∈ stopwords) := by
  decide

/-- C9 (amended): `clean_query("busco un portatil")` removes the
stopword `un`, keeps `busco` (the stopword set contains `busca`, not
`busco`), and appends the laptop expansion phrase. -/
theorem cleanQuery_busco_un_portatil :
    cleanQuery "busco un portatil" =
      "busco portatil portátil laptop computador notebook es portátil sí" := by
  decide

/-! ## Search-loop lemmas -/

theorem searchProducts_eq_sort_pre (md : List Meta)
    (hits : List (ℚ × Int)) (q : String) (k : Nat) (t : ℚ) :
    searchProducts md hits q k t =
      (searchPre md hits q k t).mergeSort (fun a b => decide (b.2 ≤ a.2)) := by
  rw [searchProducts, searchPre]
  by_cases h : md.isEmpty
  · simp [h]
  · simp [h]

theorem mem_searchProducts (md : List Meta) (hits : List (ℚ × Int))
    (q : String) (k : Nat) (t : ℚ) (p : Meta × ℚ) :
    p ∈ searchProducts md hits q k t ↔ p ∈ searchPre md hits q k t := by
  rw [searchProducts_eq_sort_pre]
  exact (List.mergeSort_perm _ _).mem_iff

theorem length_searchProducts (md : List Meta) (hits : List (ℚ × Int))
    (q : String) (k : Nat) (t : ℚ) :
    (searchProducts md hits q k t).length =
      (searchPre md hits q k t).length := by
  rw [searchProducts_eq_sort_pre]
  exact List.length_mergeSort _

theorem searchLoop_fst_main (md : List Meta) (adj : ℚ) (pen : Bool) :
    ∀ (hits : List (ℚ × Int)) (seen : List String) (p : Meta × ℚ),
      p ∈ (searchLoop md adj pen hits seen).1 → p.1.is_main_product = true
  | [], seen, p, hp => by simp [searchLoop] at hp
  | (score, idx) :: rest, seen, p, hp => by
      rw [searchLoop] at hp
      by_cases h : 0 ≤ idx ∧ idx.toNat < md.length ∧ adj ≤ score
      · rw [dif_pos h] at hp
        simp only [] at hp
        by_cases hseen : pyLower (md.get ⟨idx.toNat, h.2.1⟩).name ∈ seen
        · rw [if_pos hseen] at hp
          exact searchLoop_fst_main md adj pen rest seen p hp
        · rw [if_neg hseen] at hp
          by_cases hmain : (md.get ⟨idx.toNat, h.2.1⟩).is_main_product
          · rw [if_pos hmain] at hp
            rcases List.mem_cons.mp hp with hph | hp'
            · rw [hph]; exact hmain
            · exact searchLoop_fst_main md adj pen rest _ p hp'
          · rw [if_neg hmain] at hp
            exact searchLoop_fst_main md adj pen rest _ p hp
      · rw [dif_neg h] at hp
        exact searchLoop_fst_main md adj pen rest seen p hp

theorem searchLoop_mem_spec (md : List Meta) (adj : ℚ) (pen : Bool) :
    ∀ (hits : List (ℚ × Int)) (seen : List String) (p : Meta × ℚ),
      (p ∈ (searchLoop md adj pen hits seen).1 ∨
        p ∈ (searchLoop md adj pen hits seen).2) →
      ∃ s idx, (s, idx) ∈ hits ∧ 0 ≤ idx ∧ md[idx.toNat]? = some p.1 ∧
        adj ≤ s ∧
        p.2 = (if pen && penaltyTrigger p.1 then s * (7 / 10) else s)
  | [], seen, p, hp => by simp [searchLoop] at hp
  | (score, idx) :: rest, seen, p, hp => by
      rw [searchLoop] at hp
      by_cases h : 0 ≤ idx ∧ idx.toNat < md.length ∧ adj ≤ score
      · rw [dif_pos h] at hp
        simp only [] at hp
        by_cases hseen : pyLower (md.get ⟨idx.toNat, h.2.1⟩).name ∈ seen
        · rw [if_pos hseen] at hp
          obtain ⟨s, i, hi, h0, hget, hle, hsc⟩ :=
            searchLoop_mem_spec md adj pen rest seen p hp
          exact ⟨s, i, List.mem_cons_of_mem _ hi, h0, hget, hle, hsc⟩
        · rw [if_neg hseen] at hp
          have hnew : p = (md.get ⟨idx.toNat, h.2.1⟩,
                if pen && penaltyTrigger (md.get ⟨idx.toNat, h.2.1⟩)
                then score * (7 / 10) else score) ∨
              (p ∈ (searchLoop md adj pen rest
                  (pyLower (md.get ⟨idx.toNat, h.2.1⟩).name :: seen)).1 ∨
                p ∈ (searchLoop md adj pen rest
                  (pyLower (md.get ⟨idx.toNat, h.2.1⟩).name :: seen)).2) := by
            by_cases hmain : (md.get ⟨idx.toNat, h.2.1⟩).is_main_product
            · rw [if_pos hmain] at hp
              rcases hp with hp1 | hp2
              · rcases List.mem_cons.mp hp1 with hph | hp'
                · exact Or.inl hph
                · exact Or.inr (Or.inl hp')
              · exact Or.inr (Or.inr hp2)
            · rw [if_neg hmain] at hp
              rcases hp with hp1 | hp2
              · exact Or.inr (Or.inl hp1)
              · rcases List.mem_cons.mp hp2 with hph | hp'
                · exact Or.inl hph
                · exact Or.inr (Or.inr hp')
          rcases hnew with hph | hp'
          · refine ⟨score, idx, List.mem_cons_self _ _, h.1, ?_, h.2.2, ?_⟩
            · rw [hph]
              exact List.getElem?_eq_getElem h.2.1
            · rw [hph]
          · obtain ⟨s, i, hi, h0, hget, hle, hsc⟩ :=
              searchLoop_mem_spec md adj pen rest _ p hp'
            exact ⟨s, i, List.mem_cons_of_mem _ hi, h0, hget, hle, hsc⟩
      · rw [dif_neg h] at hp
        obtain ⟨s, i, hi, h0, hget, hle, hsc⟩ :=
          searchLoop_mem_spec md adj pen rest seen p hp
        exact ⟨s, i, List.mem_cons_of_mem _ hi, h0, hget, hle, hsc⟩

theorem searchLoop_length (md : List Meta) (adj : ℚ) (pen : Bool) :
    ∀ (hits : List (ℚ × Int)) (seen : List String),
      (searchLoop md adj pen hits seen).1.length +
        (searchLoop md adj pen hits seen).2.length =
      countNew (acceptedNames md adj hits) seen
  | [], seen => by simp [searchLoop, acceptedNames, countNew]
  | (score, idx) :: rest, seen => by
      rw [searchLoop, acceptedNames]
      by_cases h : 0 ≤ idx ∧ idx.toNat < md.length ∧ adj ≤ score
      · rw [dif_pos h, dif_pos h]
        simp only []
        rw [countNew]
        by_cases hseen : pyLower (md.get ⟨idx.toNat, h.2.1⟩).name ∈ seen
        · rw [if_pos hseen, if_pos hseen]
          exact searchLoop_length md adj pen rest seen
        · rw [if_neg hseen, if_neg hseen]
          by_cases hmain : (md.get ⟨idx.toNat, h.2.1⟩).is_main_product
          · rw [if_pos hmain]
            simp only [List.length_cons]
            rw [← searchLoop_length md adj pen rest
              (pyLower (md.get ⟨idx.toNat, h.2.1⟩).name :: seen)]
            omega
          · rw [if_neg hmain]
            simp only [List.length_cons]
            rw [← searchLoop_length md adj pen rest
              (pyLower (md.get ⟨idx.toNat, h.2.1⟩).name :: seen)]
            omega
      · rw [dif_neg h, dif_neg h]
        exact searchLoop_length md adj pen rest seen

theorem countNew_toFinset :
    ∀ (l seen : List String),
      countNew l seen = (l.toFinset \ seen.toFinset).card
  | [], seen => by simp [countNew]
  | n :: rest, seen => by
      rw [countNew]
      by_cases hn : n ∈ seen
      · rw [if_pos hn, countNew_toFinset rest seen]
        have : insert n rest.toFinset \ seen.toFinset =
            rest.toFinset \ seen.toFinset :=
          Finset.insert_sdiff_of_mem _ (List.mem_toFinset.mpr hn)
        rw [List.toFinset_cons, this]
      · rw [if_neg hn, countNew_toFinset rest (n :: seen)]
        simp only [List.toFinset_cons]
        have hset : insert n rest.toFinset \ seen.toFinset =
            insert n (rest.toFinset \ insert n seen.toFinset) := by
          ext x
          by_cases hxn : x = n
          · subst hxn
            simp [List.mem_toFinset, hn]
          · simp only [Finset.mem_sdiff, Finset.mem_insert, hxn,
              false_or]
        have hnotmem : n ∉ rest.toFinset \ insert n seen.toFinset := by
          simp
        rw [hset, Finset.card_insert_of_not_mem hnotmem]

theorem acceptedNames_anti (md : List Meta) {adj1 adj2 : ℚ}
    (hadj : adj1 ≤ adj2) :
    ∀ (hits : List (ℚ × Int)) (x : String),
      x ∈ acceptedNames md adj2 hits → x ∈ acceptedNames md adj1 hits
  | [], x, hx => by simp [acceptedNames] at hx
  | (score, idx) :: rest, x, hx => by
      rw [acceptedNames] at hx ⊢
      by_cases h2 : 0 ≤ idx ∧ idx.toNat < md.length ∧ adj2 ≤ score
      · have h1 : 0 ≤ idx ∧ idx.toNat < md.length ∧ adj1 ≤ score :=
          ⟨h2.1, h2.2.1, le_trans hadj h2.2.2⟩
        rw [dif_pos h2] at hx
        rw [dif_pos h1]
        rcases List.mem_cons.mp hx with hxh | hx'
        · exact hxh ▸ List.mem_cons_self _ _
        · exact List.mem_cons_of_mem _ (acceptedNames_anti md hadj rest x hx')
      · rw [dif_neg h2] at hx
        by_cases h1 : 0 ≤ idx ∧ idx.toNat < md.length ∧ adj1 ≤ score
        · rw [dif_pos h1]
          exact List.mem_cons_of_mem _ (acceptedNames_anti md hadj rest x hx)
        · rw [dif_neg h1]
          exact acceptedNames_anti md hadj rest x hx

theorem countNew_le_of_subset {l1 l2 : List String}
    (hsub : ∀ x ∈ l1, x ∈ l2) : countNew l1 [] ≤ countNew l2 [] := by
  rw [countNew_toFinset, countNew_toFinset]
  simp only [List.toFinset_nil, Finset.sdiff_empty]
  exact Finset.card_le_card (fun x hx =>
    List.mem_toFinset.mpr (hsub x (List.mem_toFinset.mp hx)))

theorem acceptedNames_nil_md (adj : ℚ) :
    ∀ hits : List (ℚ × Int), acceptedNames [] adj hits = []
  | [] => by rw [acceptedNames]
  | (score, idx) :: rest => by
      rw [acceptedNames]
      have h : ¬(0 ≤ idx ∧ idx.toNat < ([] : List Meta).length ∧
          adj ≤ score) := by
        rintro ⟨-, hlt, -⟩
        simp at hlt
      rw [dif_neg h]
      exact acceptedNames_nil_md adj rest

theorem searchPre_length (md : List Meta) (hits : List (ℚ × Int))
    (q : String) (k : Nat) (t : ℚ) :
    (searchPre md hits q k t).length =
      min k (countNew (acceptedNames md (adjustedThreshold q t) hits) []) := by
  rw [searchPre]
  by_cases h : md.isEmpty
  · rw [if_pos h, List.isEmpty_iff.mp h, acceptedNames_nil_md]
    simp [countNew]
  · rw [if_neg h]
    simp only [List.length_append, List.length_take]
    rw [← searchLoop_length md (adjustedThreshold q t)
      (isPortabilityQuery q) hits []]
    omega

theorem searchLoop_names (md : List Meta) (adj : ℚ) (pen : Bool) :
    ∀ (hits : List (ℚ × Int)) (seen : List String),
      ((((searchLoop md adj pen hits seen).1 ++
          (searchLoop md adj pen hits seen).2).map
            (fun p => pyLower p.1.name)).Nodup) ∧
      (∀ n ∈ ((searchLoop md adj pen hits seen).1 ++
          (searchLoop md adj pen hits seen).2).map
            (fun p => pyLower p.1.name), n ∉ seen)
  | [], seen => by simp [searchLoop]
  | (score, idx) :: rest, seen => by
      rw [searchLoop]
      by_cases h : 0 ≤ idx ∧ idx.toNat < md.length ∧ adj ≤ score
      · rw [dif_pos h]
        simp only []
        by_cases hseen : pyLower (md.get ⟨idx.toNat, h.2.1⟩).name ∈ seen
        · rw [if_pos hseen]
          exact searchLoop_names md adj pen rest seen
        · rw [if_neg hseen]
          obtain ⟨ih1, ih2⟩ := searchLoop_names md adj pen rest
            (pyLower (md.get ⟨idx.toNat, h.2.1⟩).name :: seen)
          by_cases hmain : (md.get ⟨idx.toNat, h.2.1⟩).is_main_product
          · rw [if_pos hmain]
            constructor
            · simp only [List.cons_append, List.map_cons]
              refine List.nodup_cons.mpr ⟨?_, ih1⟩
              intro hmem
              exact (ih2 _ hmem) (List.mem_cons_self _ _)
            · intro n hn
              simp only [List.cons_append, List.map_cons,
                List.mem_cons] at hn
              rcases hn with rfl | hn
              · exact hseen
              · intro hcon
                exact (ih2 n hn) (List.mem_cons_of_mem _ hcon)
          · rw [if_neg hmain]
            have hperm :
                (((searchLoop md adj pen rest
                    (pyLower (md.get ⟨idx.toNat, h.2.1⟩).name :: seen)).1 ++
                  ((md.get ⟨idx.toNat, h.2.1⟩,
                      if pen && penaltyTrigger (md.get ⟨idx.toNat, h.2.1⟩)
                      then score * (7 / 10) else score) ::
                    (searchLoop md adj pen rest
                      (pyLower (md.get ⟨idx.toNat, h.2.1⟩).name ::
                        seen)).2)).map (fun p => pyLower p.1.name)).Perm
                (pyLower (md.get ⟨idx.toNat, h.2.1⟩).name ::
                  ((searchLoop md adj pen rest
                      (pyLower (md.get ⟨idx.toNat, h.2.1⟩).name :: seen)).1 ++
                    (searchLoop md adj pen rest
                      (pyLower (md.get ⟨idx.toNat, h.2.1⟩).name ::
                        seen)).2).map (fun p => pyLower p.1.name)) := by
              rw [List.map_append, List.map_cons, List.map_append]
              exact List.perm_middle
            constructor
            · refine hperm.nodup_iff.mpr ?_
              refine List.nodup_cons.mpr ⟨?_, ih1⟩
              intro hmem
              exact (ih2 _ hmem) (List.mem_cons_self _ _)
            · intro n hn
              have hn' := hperm.mem_iff.mp hn
              rcases List.mem_cons.mp hn' with rfl | hn''
              · exact hseen
              · intro hcon
                exact (ih2 n hn'') (List.mem_cons_of_mem _ hcon)
      · rw [dif_neg h]
        exact searchLoop_names md adj pen rest seen

theorem searchPre_mem_loop (md : List Meta) (hits : List (ℚ × Int))
    (q : String) (k : Nat) (t : ℚ) (p : Meta × ℚ)
    (hp : p ∈ searchPre md hits q k t) :
    p ∈ (searchLoop md (adjustedThreshold q t)
        (isPortabilityQuery q) hits []).1 ∨
    p ∈ (searchLoop md (adjustedThreshold q t)
        (isPortabilityQuery q) hits []).2 := by
  rw [searchPre] at hp
  by_cases h : md.isEmpty
  · rw [if_pos h] at hp
    simp at hp
  · rw [if_neg h] at hp
    simp only [] at hp
    rcases List.mem_append.mp hp with h1 | h2
    · exact Or.inl ((List.take_sublist _ _).subset h1)
    · exact Or.inr ((List.take_sublist _ _).subset h2)

theorem searchPre_names_nodup (md : List Meta) (hits : List (ℚ × Int))
    (q : String) (k : Nat) (t : ℚ) :
    ((searchPre md hits q k t).map (fun p => pyLower p.1.name)).Nodup := by
  rw [searchPre]
  by_cases h : md.isEmpty
  · simp [h]
  · rw [if_neg h]
    simp only []
    refine List.Nodup.sublist
      (List.Sublist.map _ (List.Sublist.append (List.take_sublist _ _)
        (List.take_sublist _ _)))
      (searchLoop_names md (adjustedThreshold q t)
        (isPortabilityQuery q) hits []).1

theorem searchProducts_sorted (md : List Meta) (hits : List (ℚ × Int))
    (q : String) (k : Nat) (t : ℚ) :
    (searchProducts md hits q k t).Pairwise
      (fun a b : Meta × ℚ => b.2 ≤ a.2) := by
  rw [searchProducts_eq_sort_pre]
  have h := @List.sorted_mergeSort (Meta × ℚ)
    (fun a b : Meta × ℚ => decide (b.2 ≤ a.2))
    (fun a b c hab hbc => by
      simp only [decide_eq_true_eq] at *
      exact le_trans hbc hab)
    (fun a b => by
      rcases le_total a.2 b.2 with hle | hle <;> simp [hle])
    (searchPre md hits q k t)
  exact h.imp (fun hab => of_decide_eq_true hab)

theorem pairwise_index_lt {α : Type _} {R : α → α → Prop} :
    ∀ {l : List α}, l.Pairwise R → ∀ {x y : α}, x ∈ l → y ∈ l →
      ¬R y x → R x y →
      ∃ i j : Nat, i < j ∧ l[i]? = some x ∧ l[j]? = some y
  | [], _, x, y, hx, _, _, _ => by simp at hx
  | a :: tail, hl, x, y, hx, hy, hnR, hR => by
      obtain ⟨ha, htail⟩ := List.pairwise_cons.mp hl
      rcases List.mem_cons.mp hx with rfl | hx'
      · have hy' : y ∈ tail := by
          rcases List.mem_cons.mp hy with rfl | hy'
          · exact absurd hR hnR
          · exact hy'
        obtain ⟨⟨j, hj⟩, hgetj⟩ := List.mem_iff_get.mp hy'
        refine ⟨0, j + 1, Nat.succ_pos j, by simp, ?_⟩
        rw [List.getElem?_cons_succ]
        rw [List.getElem?_eq_getElem hj]
        rw [← hgetj]
        rfl
      · have hy' : y ∈ tail := by
          rcases List.mem_cons.mp hy with rfl | hy'
          · exact absurd (ha x hx') hnR
          · exact hy'
        obtain ⟨i, j, hij, hi, hj⟩ :=
          pairwise_index_lt htail hx' hy' hnR hR
        exact ⟨i + 1, j + 1, Nat.succ_lt_succ hij, by
          rw [List.getElem?_cons_succ]; exact hi, by
          rw [List.getElem?_cons_succ]; exact hj⟩

theorem adjustedThreshold_mono (q : String) {t1 t2 : ℚ} (h : t1 ≤ t2) :
    adjustedThreshold q t1 ≤ adjustedThreshold q t2 := by
  rw [adjustedThreshold, adjustedThreshold]
  by_cases hq : isPortabilityQuery q
  · rw [if_pos hq, if_pos hq]
    exact max_le_max h le_rfl
  · rw [if_neg hq, if_neg hq]
    exact h

theorem le_adjustedThreshold (q : String) (t : ℚ) :
    t ≤ adjustedThreshold q t := by
  rw [adjustedThreshold]
  by_cases hq : isPortabilityQuery q
  · rw [if_pos hq]
    exact le_max_left _ _
  · rw [if_neg hq]

theorem adjustedThreshold_of_port (q : String) (t : ℚ)
    (hq : isPortabilityQuery q = true) :
    (45 / 100 : ℚ) ≤ adjustedThreshold q t := by
  rw [adjustedThreshold, if_pos hq]
  exact le_max_right _ _

theorem isPortability_of_laptop_or_portatil {q : String}
    (hq : (strIn "laptop" (pyLower q) || strIn "portátil" (pyLower q))
      = true) : isPortabilityQuery q = true := by
  rw [isPortabilityQuery]
  rcases Bool.or_eq_true_iff.mp hq with h | h
  · exact List.any_eq_true.mpr ⟨"laptop", by decide, h⟩
  · exact List.any_eq_true.mpr ⟨"portátil", by decide, h⟩

/-! ## C2 -/

/-- C2: for a fixed query, `top_k` and hit list, raising the threshold
from `t1` to `t2 > t1` never increases the result count, and every
result of the `t2` search stems from a retrieved neighbor whose raw
index score is at least `t2` (the attached score is that raw score,
possibly multiplied by the `0.7` penalty). -/
theorem searchProducts_threshold_mono (md : List Meta)
    (hits : List (ℚ × Int)) (q : String) (k : Nat) {t1 t2 : ℚ}
    (h : t1 < t2) :
    (searchProducts md hits q k t2).length ≤
      (searchProducts md hits q k t1).length ∧
    ∀ p ∈ searchProducts md hits q k t2,
      ∃ s idx, (s, idx) ∈ hits ∧ t2 ≤ s ∧ md[idx.toNat]? = some p.1 ∧
        (p.2 = s ∨ p.2 = s * (7 / 10)) := by
  constructor
  · rw [length_searchProducts, length_searchProducts, searchPre_length,
      searchPre_length]
    have hadj := adjustedThreshold_mono q h.le
    have hcount := countNew_le_of_subset
      (fun x hx => acceptedNames_anti md hadj hits x hx)
    exact min_le_min le_rfl hcount
  · intro p hp
    have hp' := searchPre_mem_loop md hits q k t2 p
      ((mem_searchProducts md hits q k t2 p).mp hp)
    obtain ⟨s, idx, hi, h0, hget, hle, hsc⟩ :=
      searchLoop_mem_spec md (adjustedThreshold q t2)
        (isPortabilityQuery q) hits [] p hp'
    refine ⟨s, idx, hi, le_trans (le_adjustedThreshold q t2) hle, hget, ?_⟩
    by_cases hb : (isPortabilityQuery q && penaltyTrigger p.1) = true
    · rw [hb] at hsc
      exact Or.inr hsc
    · rw [Bool.eq_false_iff.mpr hb] at hsc
      exact Or.inl hsc

/-- Witness for C2 at a one-product index and thresholds `0 < 1`. -/
theorem searchProducts_threshold_mono_witness :
    ((0 : ℚ) < 1) ∧
    (searchProducts [mMainX1] [(1, 0)] "q" 1 1).length ≤
      (searchProducts [mMainX1] [(1, 0)] "q" 1 0).length :=
  ⟨by decide,
    (searchProducts_threshold_mono [mMainX1] [(1, 0)] "q" 1
      (by decide : (0 : ℚ) < 1)).1⟩

/-! ## C3 -/

/-- C3: no two entries of a `search_products` result list share the
same lowercased name. -/
theorem searchProducts_dedup (md : List Meta) (hits : List (ℚ × Int))
    (q : String) (k : Nat) (t : ℚ) :
    (searchProducts md hits q k t).Pairwise
      (fun a b => pyLower a.1.name ≠ pyLower b.1.name) := by
  have hnd : ((searchProducts md hits q k t).map
      (fun p => pyLower p.1.name)).Nodup := by
    rw [searchProducts_eq_sort_pre]
    exact ((List.mergeSort_perm _ _).map _).nodup_iff.mpr
      (searchPre_names_nodup md hits q k t)
  exact List.pairwise_map.mp hnd

/-! ## C4 -/

/-- C4 counterexample: two main-category candidates (near-identical
listings sharing the lowercased name `x`) and one accessory all pass
the threshold; `top_k = 2` main-category candidates pass, yet the
result list contains an accessory, because name-deduplication collapses
the two main candidates into one. -/
theorem searchProducts_main_fill_cex :
    2 ≤ mainPassCount [mMainX1, mMainX2, mAccY]
        (adjustedThreshold "q" 0) [(3, 0), (2, 1), (1, 2)] ∧
    ∃ p ∈ searchProducts [mMainX1, mMainX2, mAccY]
        [(3, 0), (2, 1), (1, 2)] "q" 2 0,
      p.1.is_main_product = false := by
  constructor
  · decide
  · refine ⟨(mAccY, 1), ?_, by decide⟩
    rw [mem_searchProducts]
    decide

/-- C4 (amended): if at least `top_k` accepted main-category candidates
remain after the threshold test and the name-deduplication, the result
list contains zero accessory-category entries. -/
theorem searchProducts_main_fill (md : List Meta)
    (hits : List (ℚ × Int)) (q : String) (k : Nat) (t : ℚ)
    (h : k ≤ (searchLoop md (adjustedThreshold q t)
        (isPortabilityQuery q) hits []).1.length) :
    ∀ p ∈ searchProducts md hits q k t, p.1.is_main_product = true := by
  intro p hp
  have hp' := (mem_searchProducts md hits q k t p).mp hp
  rw [searchPre] at hp'
  by_cases hmd : md.isEmpty
  · rw [if_pos hmd] at hp'
    simp at hp'
  · rw [if_neg hmd] at hp'
    simp only [] at hp'
    rw [List.length_take] at hp'
    have hmin : min k (searchLoop md (adjustedThreshold q t)
        (isPortabilityQuery q) hits []).1.length = k := by omega
    rw [hmin, Nat.sub_self, List.take_zero, List.append_nil] at hp'
    exact searchLoop_fst_main md _ _ hits [] p
      ((List.take_sublist _ _).subset hp')

/-- Witness for C4 (amended): one accepted main candidate with
`top_k = 1`; the single result is that main product. -/
theorem searchProducts_main_fill_witness :
    1 ≤ (searchLoop [mMainX1, mAccY] (adjustedThreshold "q" 0)
        (isPortabilityQuery "q") [(2, 0), (1, 1)] []).1.length ∧
    (mMainX1, (2 : ℚ)).1.is_main_product = true :=
  ⟨by decide,
    searchProducts_main_fill [mMainX1, mAccY] [(2, 0), (1, 1)] "q" 1 0
      (by decide) (mMainX1, (2 : ℚ))
      (by rw [mem_searchProducts]; decide)⟩

/-! ## C10 -/

/-- C10 counterexample: with a negative caller threshold (and no
portability term, so the effective threshold equals it), an unpenalized
result can score strictly below `0.7 ×` the effective threshold, so the
claimed floor fails as stated for every call. -/
theorem searchProducts_score_floor_cex :
    ∃ p ∈ searchProducts [mMainX1] [(-1, 0)] "q" 1 (-1),
      p.2 < (7 / 10) * adjustedThreshold "q" (-1) := by
  have hadj : adjustedThreshold "q" (-1 : ℚ) = -1 := by
    rw [adjustedThreshold,
      if_neg (by decide : ¬isPortabilityQuery "q" = true)]
  refine ⟨(mMainX1, -1), ?_, ?_⟩
  · rw [mem_searchProducts]
    decide
  · rw [hadj]
    norm_num

/-- C10 (amended): for a nonnegative caller threshold `t`, every entry
returned by `search_products` scores at least `0.7 ×` the effective
threshold (`max(t, 0.45)` for portability queries, else `t`); and a
penalized result can still score strictly below the caller's `t`, as
the second conjunct exhibits (raw score `1 ≥ 0.9`, final score
`0.7 < 0.9`). -/
theorem searchProducts_score_floor :
    (∀ (md : List Meta) (hits : List (ℚ × Int)) (q : String) (k : Nat)
        (t : ℚ), 0 ≤ t →
      ∀ p ∈ searchProducts md hits q k t,
        (7 / 10) * adjustedThreshold q t ≤ p.2) ∧
    (∃ p ∈ searchProducts [mAio] [(1, 0)] "laptop" 1 (mkRat 9 10),
      p.2 < mkRat 9 10) := by
  constructor
  · intro md hits q k t ht p hp
    obtain ⟨s, idx, hi, h0, hget, hle, hsc⟩ :=
      searchLoop_mem_spec md (adjustedThreshold q t)
        (isPortabilityQuery q) hits [] p
        (searchPre_mem_loop md hits q k t p
          ((mem_searchProducts md hits q k t p).mp hp))
    by_cases hb : (isPortabilityQuery q && penaltyTrigger p.1) = true
    · rw [hb, if_pos rfl] at hsc
      rw [hsc, mul_comm]
      exact mul_le_mul_of_nonneg_right hle (by norm_num)
    · rw [Bool.eq_false_iff.mpr hb] at hsc
      simp only [Bool.false_eq_true, if_false] at hsc
      rw [hsc]
      have hadj0 : 0 ≤ adjustedThreshold q t :=
        le_trans ht (le_adjustedThreshold q t)
      calc (7 / 10 : ℚ) * adjustedThreshold q t
          ≤ 1 * adjustedThreshold q t :=
            mul_le_mul_of_nonneg_right (by norm_num) hadj0
        _ = adjustedThreshold q t := one_mul _
        _ ≤ s := hle
  · have hport : isPortabilityQuery "laptop" = true := by decide
    have hadj : adjustedThreshold "laptop" (mkRat 9 10) = mkRat 9 10 := by
      rw [adjustedThreshold, if_pos hport]
      rw [max_eq_left]
      rw [Rat.mkRat_eq_div]
      norm_num
    have hloop : searchLoop [mAio] (mkRat 9 10) true [(1, 0)] [] =
        ([(mAio, (1 : ℚ) * (7 / 10))], []) := rfl
    have hpre : searchPre [mAio] [(1, 0)] "laptop" 1 (mkRat 9 10) =
        [(mAio, (1 : ℚ) * (7 / 10))] := by
      rw [searchPre,
        if_neg (by decide : ¬([mAio] : List Meta).isEmpty = true)]
      simp only []
      rw [hport, hadj, hloop]
      rfl
    refine ⟨(mAio, (1 : ℚ) * (7 / 10)), ?_, ?_⟩
    · rw [mem_searchProducts, hpre]
      exact List.mem_singleton.mpr rfl
    · rw [Rat.mkRat_eq_div]
      norm_num

/-- Witness for the universal floor of C10 at threshold `0`. -/
theorem searchProducts_score_floor_witness :
    (0 : ℚ) ≤ 0 ∧
    (7 / 10) * adjustedThreshold "q" 0 ≤ ((mMainX1, (1 : ℚ))).2 :=
  ⟨le_rfl,
    searchProducts_score_floor.1 [mMainX1] [(1, 0)] "q" 1 0 le_rfl
      (mMainX1, (1 : ℚ)) (by rw [mem_searchProducts]; decide)⟩

/-! ## C6 -/

/-- C6: on a query containing `laptop` or `portátil`, if the result
list holds a main-category portable entry (no penalty trigger) and a
main-category desktop all-in-one entry (penalty trigger) with distinct
names and identical raw index scores, the portable entry is ranked
strictly above the all-in-one: the `×0.7` penalty lowers only the
desktop's score and the final sort is by score descending. -/
theorem searchProducts_portability_ranking (md : List Meta)
    (hits : List (ℚ × Int)) (q : String) (k : Nat) (t : ℚ)
    (mp dp : Meta × ℚ)
    (hq : (strIn "laptop" (pyLower q) || strIn "portátil" (pyLower q))
      = true)
    (hmp : mp ∈ searchProducts md hits q k t)
    (hdp : dp ∈ searchProducts md hits q k t)
    (hmain1 : mp.1.is_main_product = true)
    (hmain2 : dp.1.is_main_product = true)
    (hname : pyLower mp.1.name ≠ pyLower dp.1.name)
    (hptag : penaltyTrigger mp.1 = false)
    (hdtag : penaltyTrigger dp.1 = true)
    (hraw : ∀ s1 s2,
      rawScoreOf md hits (adjustedThreshold q t) mp.1 s1 →
      rawScoreOf md hits (adjustedThreshold q t) dp.1 s2 → s1 = s2) :
    ∃ i j : Nat, i < j ∧
      (searchProducts md hits q k t)[i]? = some mp ∧
      (searchProducts md hits q k t)[j]? = some dp := by
  have hpen := isPortability_of_laptop_or_portatil hq
  obtain ⟨s1, i1, hi1, h01, hget1, hle1, hs1⟩ :=
    searchLoop_mem_spec md (adjustedThreshold q t)
      (isPortabilityQuery q) hits [] mp
      (searchPre_mem_loop md hits q k t mp
        ((mem_searchProducts md hits q k t mp).mp hmp))
  obtain ⟨s2, i2, hi2, h02, hget2, hle2, hs2⟩ :=
    searchLoop_mem_spec md (adjustedThreshold q t)
      (isPortabilityQuery q) hits [] dp
      (searchPre_mem_loop md hits q k t dp
        ((mem_searchProducts md hits q k t dp).mp hdp))
  rw [hpen, hptag] at hs1
  simp only [Bool.and_false, Bool.false_eq_true, if_false] at hs1
  rw [hpen, hdtag] at hs2
  simp only [Bool.and_self, if_true] at hs2
  have heq : s1 = s2 := hraw s1 s2 ⟨i1, hi1, h01, hget1, hle1⟩
    ⟨i2, hi2, h02, hget2, hle2⟩
  have hpos : 0 < s2 :=
    lt_of_lt_of_le (by norm_num)
      (le_trans (adjustedThreshold_of_port q t hpen) hle2)
  have hlt : dp.2 < mp.2 := by
    rw [hs1, hs2, heq]
    calc s2 * (7 / 10) < s2 * 1 :=
          mul_lt_mul_of_pos_left (by norm_num) hpos
      _ = s2 := mul_one s2
  exact pairwise_index_lt (searchProducts_sorted md hits q k t) hmp hdp
    (not_le.mpr hlt) hlt.le

/-- Witness for C6: a laptop and an all-in-one, both retrieved with raw
score `1` for the query `laptop`; the laptop is ranked first. -/
theorem searchProducts_portability_ranking_witness :
    ∃ i j : Nat, i < j ∧
      (searchProducts [mLaptop, mAio] [(1, 0), (1, 1)] "laptop" 10
        0)[i]? = some (mLaptop, (1 : ℚ)) ∧
      (searchProducts [mLaptop, mAio] [(1, 0), (1, 1)] "laptop" 10
        0)[j]? = some (mAio, (1 : ℚ) * (7 / 10)) := by
  have hport : isPortabilityQuery "laptop" = true := by decide
  have hadj : adjustedThreshold "laptop" (0 : ℚ) = mkRat 45 100 := by
    rw [adjustedThreshold, if_pos hport]
    rw [max_eq_right (by norm_num [Rat.mkRat_eq_div] :
      (0 : ℚ) ≤ 45 / 100)]
    rw [Rat.mkRat_eq_div]
    norm_num
  have hloop : searchLoop [mLaptop, mAio] (mkRat 45 100) true
      [(1, 0), (1, 1)] [] =
      ([(mLaptop, (1 : ℚ)), (mAio, (1 : ℚ) * (7 / 10))], []) := rfl
  have hpre : searchPre [mLaptop, mAio] [(1, 0), (1, 1)] "laptop" 10 0 =
      [(mLaptop, (1 : ℚ)), (mAio, (1 : ℚ) * (7 / 10))] := by
    rw [searchPre,
      if_neg (by decide : ¬([mLaptop, mAio] : List Meta).isEmpty = true)]
    simp only []
    rw [hport, hadj, hloop]
    rfl
  have hm1 : (mLaptop, (1 : ℚ)) ∈
      searchProducts [mLaptop, mAio] [(1, 0), (1, 1)] "laptop" 10 0 := by
    rw [mem_searchProducts, hpre]
    simp
  have hm2 : (mAio, (1 : ℚ) * (7 / 10)) ∈
      searchProducts [mLaptop, mAio] [(1, 0), (1, 1)] "laptop" 10 0 := by
    rw [mem_searchProducts, hpre]
    simp
  have hraw : ∀ s1 s2,
      rawScoreOf [mLaptop, mAio] [(1, 0), (1, 1)]
        (adjustedThreshold "laptop" 0) (mLaptop, (1 : ℚ)).1 s1 →
      rawScoreOf [mLaptop, mAio] [(1, 0), (1, 1)]
        (adjustedThreshold "laptop" 0) (mAio, (1 : ℚ) * (7 / 10)).1 s2 →
      s1 = s2 := by
    intro s1 s2 h1 h2
    obtain ⟨idx1, hmem1, -, -, -⟩ := h1
    obtain ⟨idx2, hmem2, -, -, -⟩ := h2
    simp only [List.mem_cons, List.not_mem_nil, or_false,
      Prod.mk.injEq] at hmem1 hmem2
    rcases hmem1 with ⟨h, -⟩ | ⟨h, -⟩ <;>
      rcases hmem2 with ⟨h', -⟩ | ⟨h', -⟩ <;>
      rw [h, h']
  exact searchProducts_portability_ranking [mLaptop, mAio]
    [(1, 0), (1, 1)] "laptop" 10 0 (mLaptop, (1 : ℚ))
    (mAio, (1 : ℚ) * (7 / 10)) (by decide) hm1 hm2 (by decide)
    (by decide) (by decide) (by decide) (by decide) hraw

/-! ## `search_by_filters` lemmas -/

theorem filterLoop_mem (category brand : Option String)
    (mn mx : Option ℚ) (wd : Bool) (k : Nat) :
    ∀ (l : List (Meta × Option ℚ)) (taken : Nat) (p : Meta × Option ℚ),
      p ∈ filterLoop category brand mn mx wd k l taken →
      p ∈ l ∧ catSkip category p = false ∧ brandSkip brand p = false ∧
        minPriceSkip mn p = false ∧ maxPriceSkip mx p = false ∧
        discountSkip wd p = false
  | [], taken, p, hp => by simp [filterLoop] at hp
  | x :: rest, taken, p, hp => by
      rw [filterLoop] at hp
      by_cases g1 : catSkip category x = true
      · rw [if_pos g1] at hp
        obtain ⟨hmem, hpass⟩ :=
          filterLoop_mem category brand mn mx wd k rest taken p hp
        exact ⟨List.mem_cons_of_mem _ hmem, hpass⟩
      · rw [if_neg g1] at hp
        by_cases g2 : brandSkip brand x = true
        · rw [if_pos g2] at hp
          obtain ⟨hmem, hpass⟩ :=
            filterLoop_mem category brand mn mx wd k rest taken p hp
          exact ⟨List.mem_cons_of_mem _ hmem, hpass⟩
        · rw [if_neg g2] at hp
          by_cases g3 : minPriceSkip mn x = true
          · rw [if_pos g3] at hp
            obtain ⟨hmem, hpass⟩ :=
              filterLoop_mem category brand mn mx wd k rest taken p hp
            exact ⟨List.mem_cons_of_mem _ hmem, hpass⟩
          · rw [if_neg g3] at hp
            by_cases g4 : maxPriceSkip mx x = true
            · rw [if_pos g4] at hp
              obtain ⟨hmem, hpass⟩ :=
                filterLoop_mem category brand mn mx wd k rest taken p hp
              exact ⟨List.mem_cons_of_mem _ hmem, hpass⟩
            · rw [if_neg g4] at hp
              by_cases g5 : discountSkip wd x = true
              · rw [if_pos g5] at hp
                obtain ⟨hmem, hpass⟩ :=
                  filterLoop_mem category brand mn mx wd k rest taken p hp
                exact ⟨List.mem_cons_of_mem _ hmem, hpass⟩
              · rw [if_neg g5] at hp
                simp only [Bool.not_eq_true] at g1 g2 g3 g4 g5
                by_cases hk : k ≤ taken + 1
                · rw [if_pos hk] at hp
                  have hpx : p = x := List.mem_singleton.mp hp
                  rw [hpx]
                  exact ⟨List.mem_cons_self _ _, g1, g2, g3, g4, g5⟩
                · rw [if_neg hk] at hp
                  rcases List.mem_cons.mp hp with rfl | hp'
                  · exact ⟨List.mem_cons_self _ _, g1, g2, g3, g4, g5⟩
                  · obtain ⟨hmem, hpass⟩ := filterLoop_mem category
                      brand mn mx wd k rest (taken + 1) p hp'
                    exact ⟨List.mem_cons_of_mem _ hmem, hpass⟩

/-! ## C5 -/

/-- C5: every entry returned by `search_by_filters` satisfies every
supplied filter simultaneously — case-insensitive substring match for
category and brand, inclusive numeric bounds for price, and exclusion
of the no-discount sentinels when `with_discount` is set; an absent
(`none`) filter constrains nothing. -/
theorem searchByFilters_sound (md : List Meta) (hits : List (ℚ × Int))
    (query : Option String) (category : Option String)
    (mn mx : Option ℚ) (brand : Option String) (wd : Bool) (k : Nat)
    (t : ℚ) :
    ∀ p ∈ searchByFilters md hits query category mn mx brand wd k t,
      (∀ c, category = some c →
        strIn (pyLower c) (pyLower p.1.category) = true) ∧
      (∀ b, brand = some b →
        strIn (pyLower b) (pyLower p.1.brand) = true) ∧
      (∀ x, mn = some x → x ≤ p.1.price) ∧
      (∀ x, mx = some x → p.1.price ≤ x) ∧
      (wd = true → ¬(p.1.discount_percent ∈ noDiscountSentinels)) := by
  intro p hp
  rw [searchByFilters.eq_def] at hp
  simp only [] at hp
  obtain ⟨-, hA, hB, hC, hD, hE⟩ :=
    filterLoop_mem category brand mn mx wd k _ 0 p hp
  refine ⟨?_, ?_, ?_, ?_, ?_⟩
  · intro c hc
    rw [hc] at hA
    rw [catSkip] at hA
    simpa using hA
  · intro b hb
    rw [hb] at hB
    rw [brandSkip] at hB
    simpa using hB
  · intro x hx
    rw [hx] at hC
    rw [minPriceSkip] at hC
    simp only [decide_eq_false_iff_not, not_lt] at hC
    exact hC
  · intro x hx
    rw [hx] at hD
    rw [maxPriceSkip] at hD
    simp only [decide_eq_false_iff_not, not_lt] at hD
    exact hD
  · intro hwd hcon
    rw [hwd] at hE
    rw [discountSkip] at hE
    simp only [Bool.true_and] at hE
    have hcont : noDiscountSentinels.contains p.1.discount_percent
        = true := List.elem_iff.mpr hcon
    rw [hcont] at hE
    simp at hE

/-- Witness for C5: a discount-bearing laptop passes a category
substring filter, a brand substring filter, inclusive price bounds and
the discount-presence filter. -/
theorem searchByFilters_sound_witness :
    strIn (pyLower "Portá") (pyLower (mLaptop, (none : Option ℚ)).1.category)
      = true :=
  (searchByFilters_sound [mLaptop, mAio] [] none (some "Portá")
      (some 100) (some 4000000) (some "HP") true 5 0
      (mLaptop, (none : Option ℚ)) (by decide)).1 "Portá" rfl

/-! ## C8 -/

/-- C8 counterexample: without a query the candidate pool is truncated
to `top_k * 3` entries, not the full metadata set: a catalog of four
products whose only filter-matching product sits at index 3 yields an
empty result for `top_k = 1`, although that product passes every filter
and fewer than `top_k` survivors were collected. -/
theorem searchByFilters_pool_cex :
    searchByFilters [mMainX1, mMainX2, mAccY, mTab] [] none
        (some "tablets") none none none false 1 0 = [] ∧
    mTab ∈ [mMainX1, mMainX2, mAccY, mTab] ∧
    strIn (pyLower "tablets") (pyLower mTab.category) = true := by
  refine ⟨?_, by decide, by decide⟩
  decide

/-- C8 (amended): when `search_by_filters` is called without a query,
the candidate pool to which the filters are applied is the enumerated
metadata truncated to the first `top_k * 3` entries — every returned
entry carries no similarity score and stems from that truncated
prefix. -/
theorem searchByFilters_no_query_pool (md : List Meta)
    (hits : List (ℚ × Int)) (category : Option String)
    (mn mx : Option ℚ) (brand : Option String) (wd : Bool) (k : Nat)
    (t : ℚ) :
    ∀ p ∈ searchByFilters md hits none category mn mx brand wd k t,
      p.2 = none ∧ p.1 ∈ md.take (k * 3) := by
  intro p hp
  rw [searchByFilters.eq_def] at hp
  simp only [] at hp
  have hmem := (filterLoop_mem category brand mn mx wd k _ 0 p hp).1
  have hmem' : p ∈ (md.take (k * 3)).map
      (fun m => (m, (none : Option ℚ))) := by
    rw [List.map_take]
    exact hmem
  obtain ⟨m, hm, hpm⟩ := List.mem_map.mp hmem'
  rw [← hpm]
  exact ⟨rfl, hm⟩

/-- Witness for C8 (amended) on a one-product catalog with no
filters. -/
theorem searchByFilters_no_query_pool_witness :
    ((mMainX1, (none : Option ℚ)).2 = none ∧
      (mMainX1, (none : Option ℚ)).1 ∈ [mMainX1].take (1 * 3)) :=
  searchByFilters_no_query_pool [mMainX1] [] none none none none false
    1 0 (mMainX1, (none : Option ℚ)) (by decide)

end EmbeddingManager
